/-
  Verification of the package-operator phase reconciler, object-template
  controller and hosted-cluster controller against their specification.

  The Go sources are shallowly embedded: Go `map[string]interface{}` values
  (unstructured Kubernetes objects) become a JSON-like `Value` tree, Go maps
  become association lists with Go map insert/lookup semantics, fallible Go
  functions returning `(T, error)` become `Except`, and every write the
  reconcilers issue through their `client.Writer` is logged in an explicit
  write list.  Interfaces that are injected into the reconcilers
  (`ownerStrategy`, the dynamic cache, the writer) are modelled as explicit
  function parameters, mirroring the Go dependency injection.
-/
import Mathlib

namespace PackageOperator

/-! ## Go string maps (`map[string]string`) as association lists -/

/-- A Go `map[string]string`.  Keys are unique in every map the embedded code
    constructs; `smInsert` preserves that invariant. -/
abbrev StringMap := List (String × String)

/-- Lookup in a Go string map (`m[k]`, presence via the second return). -/
def smLookup : StringMap → String → Option String
  | [], _ => none
  | (k, v) :: rest, key => if k = key then some v else smLookup rest key

/-- Go map assignment `m[k] = v`: overwrite in place or append. -/
def smInsert : StringMap → String → String → StringMap
  | [], k, v => [(k, v)]
  | (k', v') :: rest, k, v =>
    if k' = k then (k, v) :: rest else (k', v') :: smInsert rest k v

/-! ## JSON-like values (`interface{}` contents of unstructured objects)

JSON decoded into `map[string]interface{}` holds nulls, booleans, numbers,
strings, `[]interface{}` and nested maps.  Numbers are modelled as `Int`
(unstructured integer fields); none of the verified code paths manipulate
fractional numbers. -/

inductive Value where
  | null
  | bool (b : Bool)
  | int (n : Int)
  | str (s : String)
  | arr (elems : List Value)
  | obj (fields : List (String × Value))
deriving Repr

/-- Lookup in a Go `map[string]interface{}`. -/
def lookupField : List (String × Value) → String → Option Value
  | [], _ => none
  | (k, v) :: rest, key => if k = key then some v else lookupField rest key

/-- Go map assignment for `map[string]interface{}`. -/
def insertField : List (String × Value) → String → Value → List (String × Value)
  | [], k, v => [(k, v)]
  | (k', v') :: rest, k, v =>
    if k' = k then (k, v) :: rest else (k', v') :: insertField rest k v

/-- Go `delete(m, k)`. -/
def eraseField : List (String × Value) → String → List (String × Value)
  | [], _ => []
  | (k', v') :: rest, k =>
    if k' = k then rest else (k', v') :: eraseField rest k

/-- Result of `unstructured.NestedFieldNoCopy`: the `(value, found, err)`
    triple collapses to three cases (`err` is only ever a "not a map" error). -/
inductive Nested where
  | found (v : Value)
  | absent
  | notAMap
deriving Repr

/-- Embeds `unstructured.NestedFieldNoCopy(obj, fields...)`: walk nested maps;
    a `nil` intermediate value or a missing key yields not-found with no
    error, a non-map intermediate value yields an error.
    (`NestedFieldCopy` walks identically and deep-copies the result, which is
    the identity in this pure model.) -/
def nestedFieldNoCopy : Value → List String → Nested
  | v, [] => .found v
  | .null, _ :: _ => .absent
  | .obj fs, f :: rest =>
    match lookupField fs f with
    | some v => nestedFieldNoCopy v rest
    | none => .absent
  | _, _ :: _ => .notAMap

/-- Embeds `unstructured.SetNestedField(obj, value, fields...)`: walk/create the
    intermediate maps and assign at the last field; `none` models the
    "value at %v is not a map" error.  Callers always pass a non-empty field
    list (`strings.Split` never returns an empty slice). -/
def setNestedField (fs : List (String × Value)) (value : Value) :
    List String → Option (List (String × Value))
  | [] => none
  | [f] => some (insertField fs f value)
  | f :: g :: rest =>
    match lookupField fs f with
    | some (.obj sub) =>
      (setNestedField sub value (g :: rest)).map fun sub' =>
        insertField fs f (.obj sub')
    | some _ => none
    | none =>
      (setNestedField [] value (g :: rest)).map fun sub' =>
        insertField fs f (.obj sub')

/-- Embeds `unstructured.RemoveNestedField(obj, fields...)`: delete the leaf key;
    stop silently if an intermediate field is missing or not a map. -/
def removeNestedField (fs : List (String × Value)) :
    List String → List (String × Value)
  | [] => fs
  | [f] => eraseField fs f
  | f :: g :: rest =>
    match lookupField fs f with
    | some (.obj sub) => insertField fs f (.obj (removeNestedField sub (g :: rest)))
    | _ => fs

/-! ## `equality.Semantic.DeepDerivative`

Embeds `deepValueDerive` from apimachinery's forked `deep_equal.go`, applied
to unstructured JSON values: a `nil` interface on the left always matches; an
empty string on the left matches any string; differing dynamic types never
match; numbers and booleans compare by plain equality; a nil/empty slice on
the left matches any slice, a non-empty one requires an equal-length slice on
the right with element-wise derivative equality; a nil/empty map on the left
matches any map, otherwise every key on the left must be present on the
right with derivative-equal value (the right map may have more keys). -/

mutual

def deepDerivative : Value → Value → Bool
  | .null, _ => true
  | .bool b, w =>
    match w with
    | .bool c => b == c
    | _ => false
  | .int n, w =>
    match w with
    | .int m => n == m
    | _ => false
  | .str s, w =>
    match w with
    | .str t => s == "" || s == t
    | _ => false
  | .arr xs, w =>
    match w with
    | .arr ys => xs.isEmpty || ((xs.length == ys.length) && derivElems xs ys)
    | _ => false
  | .obj fs, w =>
    match w with
    | .obj gs => derivFields fs gs
    | _ => false

def derivElems : List Value → List Value → Bool
  | [], _ => true
  | _ :: _, [] => false
  | x :: xs, y :: ys => deepDerivative x y && derivElems xs ys

def derivFields : List (String × Value) → List (String × Value) → Bool
  | [], _ => true
  | (k, v) :: rest, gs =>
    (match lookupField gs k with
     | some w => deepDerivative v w
     | none => false) && derivFields rest gs

end

/-! ## Unstructured objects and their metadata accessors

`unstructured.Unstructured` wraps one `map[string]interface{}`.  The typed
accessors below embed the corresponding apimachinery helpers.  The setters
panic in Go when `metadata` exists but is not a map; this model leaves the
object unchanged in that case, and theorems about code paths that call a
setter assume a well-formed `metadata` (see `metadataSettable`). -/

structure Unstructured where
  Object : List (String × Value)
deriving Repr

/-- Encode a Go `map[string]string` as a JSON object value. -/
def encodeStringMap (m : StringMap) : Value :=
  .obj (m.map fun kv => (kv.1, .str kv.2))

/-- Decode a JSON object into a `map[string]string`; any non-string value is
    the `NestedStringMap` "not a string" error. -/
def decodeStringMap : List (String × Value) → Option StringMap
  | [] => some []
  | (k, .str s) :: rest => (decodeStringMap rest).map fun m => (k, s) :: m
  | _ :: _ => none

/-- Embeds `NestedStringMap(u.Object, "metadata", key)` as used by `GetLabels` and
    `GetAnnotations`: both swallow errors and return a nil map on absence,
    a non-map value, or a map with a non-string entry. -/
def getMetadataStringMap (u : Unstructured) (key : String) : Option StringMap :=
  match nestedFieldNoCopy (.obj u.Object) ["metadata", key] with
  | .found (.obj fs) => decodeStringMap fs
  | _ => none

/-- Embeds `u.GetLabels()`; `none` is Go's nil map. -/
def Unstructured.getLabels (u : Unstructured) : Option StringMap :=
  getMetadataStringMap u "labels"

/-- Embeds `u.GetAnnotations()`; `none` is Go's nil map. -/
def Unstructured.getAnnotations (u : Unstructured) : Option StringMap :=
  getMetadataStringMap u "annotations"

/-- Embeds `u.SetLabels(m)` / `u.SetAnnotations(m)`: a nil map removes
    `metadata.<key>`, otherwise `SetNestedStringMap` stores it (Go panics when
    `metadata` is not a map; modelled as the identity there). -/
def setMetadataStringMap (u : Unstructured) (key : String) (m : Option StringMap) :
    Unstructured :=
  match m with
  | none => ⟨removeNestedField u.Object ["metadata", key]⟩
  | some sm =>
    ⟨(setNestedField u.Object (encodeStringMap sm) ["metadata", key]).getD u.Object⟩

def Unstructured.setLabels (u : Unstructured) (m : Option StringMap) : Unstructured :=
  setMetadataStringMap u "labels" m

def Unstructured.setAnnotations (u : Unstructured) (m : Option StringMap) : Unstructured :=
  setMetadataStringMap u "annotations" m

/-- Embeds `NestedString` under `metadata`, defaulting to `""` as the typed getters
    (`GetName`, `GetNamespace`, `GetUID`, `GetResourceVersion`) do. -/
def getMetadataString (u : Unstructured) (key : String) : String :=
  match nestedFieldNoCopy (.obj u.Object) ["metadata", key] with
  | .found (.str s) => s
  | _ => ""

def Unstructured.getName (u : Unstructured) : String := getMetadataString u "name"

def Unstructured.getNamespace (u : Unstructured) : String :=
  getMetadataString u "namespace"

def Unstructured.getUID (u : Unstructured) : String := getMetadataString u "uid"

def Unstructured.getResourceVersion (u : Unstructured) : String :=
  getMetadataString u "resourceVersion"

/-- The typed metadata string setters (`SetName` etc.); Go panics when
    `metadata` is present but not a map, modelled as the identity. -/
def setMetadataString (u : Unstructured) (key : String) (s : String) : Unstructured :=
  ⟨(setNestedField u.Object (.str s) ["metadata", key]).getD u.Object⟩

def Unstructured.setName (u : Unstructured) (s : String) : Unstructured :=
  setMetadataString u "name" s

def Unstructured.setNamespace (u : Unstructured) (s : String) : Unstructured :=
  setMetadataString u "namespace" s

def Unstructured.setUID (u : Unstructured) (s : String) : Unstructured :=
  setMetadataString u "uid" s

/-- Embeds `u.SetResourceVersion(v)`: the empty string removes the field. -/
def Unstructured.setResourceVersion (u : Unstructured) (s : String) : Unstructured :=
  if s.length = 0 then ⟨removeNestedField u.Object ["metadata", "resourceVersion"]⟩
  else setMetadataString u "resourceVersion" s

/-- Embeds `u.GetKind()` (from the `TypeMeta` field `kind`). -/
def Unstructured.getKind (u : Unstructured) : String :=
  match nestedFieldNoCopy (.obj u.Object) ["kind"] with
  | .found (.str s) => s
  | _ => ""

/-- Embeds `u.SetGroupVersionKind(gvk)`: stores `apiVersion` and `kind`. -/
def Unstructured.setGroupVersionKind (u : Unstructured) (apiVersion kind : String) :
    Unstructured :=
  let o := (setNestedField u.Object (.str apiVersion) ["apiVersion"]).getD u.Object
  ⟨(setNestedField o (.str kind) ["kind"]).getD o⟩

/-- Embeds `metadata` is absent or a JSON object, so the metadata setters cannot hit
    their panic path on this object. -/
def metadataSettable (u : Unstructured) : Bool :=
  match lookupField u.Object "metadata" with
  | none => true
  | some (.obj _) => true
  | some _ => false

/-! ## Revision parsing and formatting

`strconv.ParseInt(s, 10, 64)` and `fmt.Sprintf("%d", revision)` for `int64`
revisions. -/

/-- Embeds `strconv.ParseInt` error kinds relevant at base 10 / bitSize 64. -/
inductive ParseIntError where
  | malformed
  | outOfRange
deriving Repr, DecidableEq

/-- Decimal digit value of a character (`d = c - '0'` under Go's
    `'0' <= c && c <= '9'` guard), `none` for a non-digit. -/
def digitVal (c : Char) : Option Nat :=
  if '0' ≤ c ∧ c ≤ '9' then some (c.toNat - '0'.toNat) else none

/-- Accumulate base-10 digits left to right; `none` on the first non-digit
    (Go returns `ErrSyntax` there). -/
def parseDigits : List Char → Nat → Option Nat
  | [], acc => some acc
  | c :: rest, acc =>
    match digitVal c with
    | some d => parseDigits rest (acc * 10 + d)
    | none => none

/-- Embeds `strconv.ParseInt(s, 10, 64)`: optional single `+`/`-` sign, a non-empty
    run of decimal digits, and the `int64` range check (Go returns the
    clamped value together with `ErrRange`; only the error reaches the
    callers embedded here). -/
def parseInt64 (s : String) : Except ParseIntError Int :=
  match s.data with
  | [] => .error .malformed
  | c :: rest =>
    let neg : Bool := c = '-'
    let digits : List Char := if c = '+' || c = '-' then rest else c :: rest
    if digits.isEmpty then .error .malformed
    else
      match parseDigits digits 0 with
      | none => .error .malformed
      | some n =>
        if neg then
          if n > 2 ^ 63 then .error .outOfRange else .ok (-(n : Int))
        else
          if n ≥ 2 ^ 63 then .error .outOfRange else .ok (n : Int)

/-- Decimal digits of `n`, most significant first (`%d` for a `uint64`). -/
def formatNat (n : Nat) : List Char :=
  if h : n < 10 then [(Nat.digitChar n)]
  else formatNat (n / 10) ++ [Nat.digitChar (n % 10)]
decreasing_by exact Nat.div_lt_self (Nat.lt_of_lt_of_le (by norm_num) (Nat.le_of_not_lt h)) (by norm_num)

/-- Embeds `fmt.Sprintf("%d", revision)` for an `int64` revision. -/
def formatInt (r : Int) : String :=
  if r < 0 then ⟨'-' :: formatNat r.natAbs⟩ else ⟨formatNat r.toNat⟩

/-! ## Revision annotation helpers (`phase_reconciler.go`) -/

/-- Revision annotation key holding the revision generation number. -/
def revisionAnnotationKey : String := "package-operator.run/revision"

/-- Embeds `getObjectRevision(obj)`: nil annotation map or missing/empty annotation
    value yields `(0, nil)`; otherwise the `strconv.ParseInt` result is
    returned as-is, including its error. -/
def getObjectRevision (obj : Unstructured) : Except ParseIntError Int :=
  match obj.getAnnotations with
  | none => .ok 0
  | some a =>
    match smLookup a revisionAnnotationKey with
    | none => .ok 0
    | some s => if s.length = 0 then .ok 0 else parseInt64 s

/-- Embeds `setObjectRevision(obj, revision)`: stamp the formatted revision into the
    annotation map (created when nil) and store it back. -/
def setObjectRevision (obj : Unstructured) (revision : Int) : Unstructured :=
  let a := obj.getAnnotations.getD []
  obj.setAnnotations (some (smInsert a revisionAnnotationKey (formatInt revision)))

/-! ## Owner strategy, owners and previous revisions

`ownerStrategy` is an interface injected into `PhaseReconciler`; its
implementation lives outside the embedded sources, so it is carried as a
record of functions, exactly as the Go code carries the interface value. -/

structure OwnerStrategy where
  isController : Unstructured → Unstructured → Bool
  releaseController : Unstructured → Unstructured
  setControllerReference : Unstructured → Unstructured → Except String Unstructured
  removeOwner : Unstructured → Unstructured → Unstructured
  ownerPatch : Unstructured → Except String Value

/-- Embeds `PhaseObjectOwner` capability set (conditions are handled separately by
    `mapConditions`). -/
structure PhaseObjectOwner where
  clientObject : Unstructured
  revision : Int
  isPaused : Bool

/-- A remote phase reference (`{Name, UID}`) of a previous object set. -/
structure RemotePhaseRef where
  name : String
  uid : String

/-- Embeds `PreviousObjectSet`: a prior owner plus its remote-phase delegates.
    `kind` is the GVK kind `apiutil.GVKForObject` resolves from the scheme
    for the prior owner (`ObjectSet`, `ClusterObjectSet`, ...); the Go code
    panics when the scheme lookup fails, so the kind is carried directly. -/
structure PreviousObjectSet where
  clientObject : Unstructured
  kind : String
  remotePhases : List RemotePhaseRef

/-- Embeds `corev1alpha1.GroupVersion` as an `apiVersion` string. -/
def coreGroupVersion : String := "package-operator.run/v1alpha1"

/-- The synthetic `potentialRemoteOwner` built inside
    `isControlledByPreviousRevision`: a fresh unstructured object with the
    remote-phase GVK, the delegate's name and UID, and the prior owner's
    namespace. -/
def potentialRemoteOwner (remoteKind : String) (prev : PreviousObjectSet)
    (remote : RemotePhaseRef) : Unstructured :=
  let u : Unstructured := ⟨[]⟩
  let u := u.setGroupVersionKind coreGroupVersion remoteKind
  let u := u.setName remote.name
  let u := u.setUID remote.uid
  u.setNamespace prev.clientObject.getNamespace

/-- Embeds `defaultAdoptionChecker.isControlledByPreviousRevision`: some previous
    object set controls `obj` directly, or (when it has remote phases) one of
    its remote-phase delegates, reconstructed as `ObjectSetPhase` or
    `ClusterObjectSetPhase` depending on the prior owner's kind prefix,
    controls `obj`. -/
def isControlledByPreviousRevision (strat : OwnerStrategy) (obj : Unstructured)
    (previous : List PreviousObjectSet) : Bool :=
  previous.any fun prev =>
    strat.isController prev.clientObject obj ||
    (!prev.remotePhases.isEmpty &&
      let remoteKind :=
        if prev.kind.startsWith "Cluster" then "ClusterObjectSetPhase"
        else "ObjectSetPhase"
      prev.remotePhases.any fun remote =>
        strat.isController (potentialRemoteOwner remoteKind prev remote) obj)

/-- Errors `defaultAdoptionChecker.Check` can return. -/
inductive CheckError where
  | revisionParse (e : ParseIntError)
  | notOwnedByPreviousRevision
  | revisionCollision
deriving Repr, DecidableEq

/-- Embeds `defaultAdoptionChecker.Check`: decides whether the phase reconciler must
    adopt `obj`.  `forceAdoptionEnv` is the value of the
    `PKO_FORCE_ADOPTION` environment variable. -/
def Check (forceAdoptionEnv : String) (strat : OwnerStrategy)
    (owner : PhaseObjectOwner) (obj : Unstructured)
    (previous : List PreviousObjectSet) : Except CheckError Bool :=
  if forceAdoptionEnv.length > 0 then .ok true
  else if strat.isController owner.clientObject obj then .ok false
  else
    match getObjectRevision obj with
    | .error e => .error (.revisionParse e)
    | .ok currentRevision =>
      if currentRevision > owner.revision then .ok false
      else if !isControlledByPreviousRevision strat obj previous then
        .error .notOwnedByPreviousRevision
      else if currentRevision = owner.revision then .error .revisionCollision
      else .ok true

/-! ## The patcher (`defaultPatcher.Patch`) -/

/-- A write issued through the `client.Writer`. -/
inductive Write where
  | create (obj : Unstructured)
  | mergePatch (target : Unstructured) (body : Value)
  | applyPatch (target : Unstructured) (body : Unstructured)
  | update (obj : Unstructured)
  | delete (obj : Unstructured)

/-- Embeds `mergeKeysFrom(base, additional)`: start from `base` (empty when nil),
    overlay every key of `additional`, and collapse an empty result back to a
    nil map. -/
def mergeKeysFrom (base additional : Option StringMap) : Option StringMap :=
  let b := base.getD []
  let merged := (additional.getD []).foldl (fun acc kv => smInsert acc kv.1 kv.2) b
  if merged.length = 0 then none else some merged

/-- Embeds `defaultPatcher.Patch(desiredObj, currentObj, updatedObj)`: overlay
    `updatedObj`'s labels and annotations under `desiredObj`'s, strip
    `status` and `metadata.ownerReferences` from the patch and `status` from
    the base, and issue one server-side apply (carrying `currentObj`'s
    resource version) only when the patch is not deep-derivative-contained in
    the base.  `applyPatchErr` is the writer's answer to that apply patch
    (`none` on success).  Returns the writes issued; the in-place mutation of
    `desiredObj` is not observed by its caller. -/
def defaultPatcherPatch (applyPatchErr : Option String)
    (desiredObj currentObj updatedObj : Unstructured) :
    Except String (List Write) :=
  let desired := desiredObj.setLabels
    (mergeKeysFrom updatedObj.getLabels desiredObj.getLabels)
  let desired := desired.setAnnotations
    (mergeKeysFrom updatedObj.getAnnotations desired.getAnnotations)
  let patch : Unstructured := ⟨removeNestedField desired.Object ["status"]⟩
  let patch : Unstructured :=
    ⟨removeNestedField patch.Object ["metadata", "ownerReferences"]⟩
  let base : Unstructured := ⟨removeNestedField updatedObj.Object ["status"]⟩
  if !deepDerivative (.obj patch.Object) (.obj base.Object) then
    let patch := patch.setResourceVersion currentObj.getResourceVersion
    match applyPatchErr with
    | some e => .error ("patching object: " ++ e)
    | none => .ok [.applyPatch updatedObj patch]
  else .ok []

/-! ## `PhaseReconciler.reconcileObject` -/

/-- Outcome of the dynamic-cache `Get` for the object key. -/
inductive GetResult where
  | ok (obj : Unstructured)
  | errNotFound
  | errOther (e : String)

/-- Errors `reconcileObject` can return. -/
inductive ReconcileError where
  | getting (e : String)
  | creating (e : String)
  | adoption (e : CheckError)
  | settingControllerReference (e : String)
  | ownershipPatch (e : String)
  | patching (e : String)
deriving Repr

/-- Embeds `PhaseReconciler.reconcileObject`: create the desired object when the
    cache misses; otherwise run the adoption check on the cached object,
    patch ownership metadata when adoption is needed, and run the patcher
    only when the owner controls (or now controls) the object.  The writer
    and cache are injected: `getResult` is the cache read for the object's
    key, `createErr` the writer's answer to a `Create` (`none` on success),
    `mergePatchErr` its answer to the ownership merge patch, `applyPatchErr`
    its answer to the patcher's apply patch.  Returns the Go return value
    `actualObj` together with the writes issued (the in-memory result of a
    server round-trip is not modelled). -/
def reconcileObject (strat : OwnerStrategy) (forceAdoptionEnv : String)
    (getResult : GetResult) (createErr mergePatchErr applyPatchErr : Option String)
    (owner : PhaseObjectOwner) (desiredObj : Unstructured)
    (previous : List PreviousObjectSet) :
    Except ReconcileError (Unstructured × List Write) :=
  match getResult with
  | .errOther e => .error (.getting e)
  | .errNotFound =>
    match createErr with
    | some e => .error (.creating e)
    | none => .ok (desiredObj, [.create desiredObj])
  | .ok currentObj =>
    let updatedObj := currentObj
    match Check forceAdoptionEnv strat owner currentObj previous with
    | .error e => .error (.adoption e)
    | .ok needsAdoption =>
      let adopted : Except ReconcileError (Unstructured × List Write) :=
        if needsAdoption then
          let updatedObj := setObjectRevision updatedObj owner.revision
          let updatedObj := strat.releaseController updatedObj
          match strat.setControllerReference owner.clientObject updatedObj with
          | .error e => .error (.settingControllerReference e)
          | .ok updatedObj =>
            match strat.ownerPatch updatedObj with
            | .error e => .error (.ownershipPatch e)
            | .ok body =>
              match mergePatchErr with
              | some e => .error (.ownershipPatch e)
              | none => .ok (updatedObj, [.mergePatch updatedObj body])
        else .ok (updatedObj, [])
      match adopted with
      | .error e => .error e
      | .ok (updatedObj, writes) =>
        if strat.isController owner.clientObject updatedObj then
          match defaultPatcherPatch applyPatchErr desiredObj currentObj updatedObj with
          | .error e => .error (.patching e)
          | .ok patchWrites => .ok (updatedObj, writes ++ patchWrites)
        else .ok (updatedObj, writes)

/-! ## Condition mapping (`mapConditions`) -/

/-- Embeds `metav1.Condition`.  `lastTransitionTime` is omitted: the mapped
    conditions are written with a zero transition time, which
    `meta.SetStatusCondition` replaces by the wall clock, and no embedded
    claim mentions it. -/
structure Condition where
  type : String
  status : String
  reason : String
  message : String
  observedGeneration : Int
deriving Repr, DecidableEq

/-- Embeds `corev1alpha1.ConditionMapping`. -/
structure ConditionMapping where
  sourceType : String
  destinationType : String

/-- The `conditionTypeMap` built inside `mapConditions` (a Go map, so a later
    mapping for the same source type overwrites an earlier one). -/
def buildConditionTypeMap (ms : List ConditionMapping) : StringMap :=
  ms.foldl (fun acc m => smInsert acc m.sourceType m.destinationType) []

/-- Embeds `meta.SetStatusCondition` (apimachinery): replace the first condition of
    the same type field by field, or append when the type is absent. -/
def setStatusCondition : List Condition → Condition → List Condition
  | [], nc => [nc]
  | c :: rest, nc =>
    if c.type = nc.type then nc :: rest else c :: setStatusCondition rest nc

/-- Embeds `mapConditions(ctx, owner, conditionMappings, actualObject)`: skip stale
    object conditions (non-zero `observedGeneration` differing from the
    object's generation) and unmapped types; write each remaining condition
    onto the owner under the mapped destination type with the owner's
    generation.  The extraction of `status.conditions` and its JSON
    round-trip into `[]metav1.Condition` is modelled by handing the decoded
    list directly (`none` when the field is absent). -/
def mapConditions (conditionMappings : List ConditionMapping)
    (objGeneration : Int) (objConditions : Option (List Condition))
    (ownerGeneration : Int) (ownerConditions : List Condition) : List Condition :=
  if conditionMappings.isEmpty then ownerConditions
  else
    match objConditions with
    | none => ownerConditions
    | some conds =>
      let conditionTypeMap := buildConditionTypeMap conditionMappings
      conds.foldl
        (fun acc condition =>
          if condition.observedGeneration ≠ (0 : Int) ∧
              condition.observedGeneration ≠ objGeneration then (acc : List Condition)
          else
            match smLookup conditionTypeMap condition.type with
            | none => acc
            | some destType =>
              setStatusCondition acc
                ⟨destType, condition.status, condition.reason,
                  condition.message, ownerGeneration⟩)
        ownerConditions

/-! ## `PhaseReconciler.desiredObject` and phase teardown -/

/-- The dynamic-cache label key.  Modelled from the spec: the constant
    `DynamicCacheLabel` is declared outside the embedded sources; the spec
    fixes the mandatory label `cache=True` under a domain-qualified key. -/
def DynamicCacheLabel : String := "package-operator.run/cache"

/-- Embeds `PhaseReconciler.desiredObject`: default the namespace to the owner's
    (when the owner is namespaced), force the dynamic-cache label, stamp the
    owner's revision, and set the controller reference. -/
def desiredObject (strat : OwnerStrategy) (owner : PhaseObjectOwner)
    (phaseObject : Unstructured) : Except String Unstructured :=
  let d := phaseObject
  let d :=
    if owner.clientObject.getNamespace.length > 0 then
      d.setNamespace owner.clientObject.getNamespace
    else d
  let labels := d.getLabels.getD []
  let labels := smInsert labels DynamicCacheLabel "True"
  let d := d.setLabels (some labels)
  let d := setObjectRevision d owner.revision
  strat.setControllerReference owner.clientObject d

/-- Outcome of the writer's `Delete`. -/
inductive DeleteResult where
  | ok
  | errNotFound
  | errOther (e : String)

/-- The environment `teardownPhaseObject` runs against: the dynamic cache's
    `Watch` and `Get` and the writer's `Update` and `Delete`, each keyed by
    the object it is called with. -/
structure TeardownEnv where
  watchErr : Unstructured → Option String
  get : Unstructured → GetResult
  updateErr : Unstructured → Option String
  delete : Unstructured → DeleteResult

/-- Embeds `PhaseReconciler.teardownPhaseObject`: a missing object, an object owned
    by someone else (after dropping our owner reference), or a delete that
    answers NotFound count as done; a delete that succeeds does not; every
    other failure is an error. -/
def teardownPhaseObject (env : TeardownEnv) (strat : OwnerStrategy)
    (owner : PhaseObjectOwner) (phaseObject : Unstructured) :
    Except String Bool :=
  match desiredObject strat owner phaseObject with
  | .error e => .error ("building desired object: " ++ e)
  | .ok desiredObj =>
    match env.watchErr desiredObj with
    | some e => .error ("watching new resource: " ++ e)
    | none =>
      match env.get desiredObj with
      | .errNotFound => .ok true
      | .errOther e => .error ("getting object for teardown: " ++ e)
      | .ok currentObj =>
        if !strat.isController owner.clientObject currentObj then
          let currentObj := strat.removeOwner owner.clientObject currentObj
          match env.updateErr currentObj with
          | some e => .error ("removing owner reference: " ++ e)
          | none => .ok true
        else
          match env.delete currentObj with
          | .errNotFound => .ok true
          | .errOther e => .error ("deleting object for teardown: " ++ e)
          | .ok => .ok false

/-- The loop body of `TeardownPhase`: tear down each object in order,
    stopping at the first error, counting the objects that are done. -/
def teardownLoop (env : TeardownEnv) (strat : OwnerStrategy)
    (owner : PhaseObjectOwner) : List Unstructured → Except String Nat
  | [] => .ok 0
  | o :: rest =>
    match teardownPhaseObject env strat owner o with
    | .error e => .error e
    | .ok done =>
      (teardownLoop env strat owner rest).map fun c => if done then c + 1 else c

/-- Embeds `PhaseReconciler.TeardownPhase`: done exactly when every object of the
    phase counted as done. -/
def TeardownPhase (env : TeardownEnv) (strat : OwnerStrategy)
    (owner : PhaseObjectOwner) (phaseObjects : List Unstructured) :
    Except String Bool :=
  (teardownLoop env strat owner phaseObjects).map fun c =>
    c == phaseObjects.length

/-! ## Object template controller: `GetValuesFromSources`

Embeds `GenericObjectTemplateController.GetValuesFromSources` from the
object-template controller.  The `sources` accumulator is the `Object` map
of the `*unstructured.Unstructured` handed in by `Reconcile`, modelled as an
(initially empty) map. -/

/-- Embeds `corev1alpha1.ObjectTemplateSourceItem`. -/
structure ObjectTemplateSourceItem where
  key : String
  destination : String

/-- Embeds `corev1alpha1.ObjectTemplateSource` (`nspace` is the `namespace` field). -/
structure ObjectTemplateSource where
  apiVersion : String
  kind : String
  nspace : String
  name : String
  items : List ObjectTemplateSourceItem
  optional : Bool

def Unstructured.setKind (u : Unstructured) (s : String) : Unstructured :=
  ⟨(setNestedField u.Object (.str s) ["kind"]).getD u.Object⟩

/-- The dynamic cache as seen by `GetValuesFromSources`: `Watch` and `Get`,
    keyed by the source stub object (`Get` fills it from the cache). -/
structure TemplateEnv where
  watchErr : Unstructured → Option String
  get : Unstructured → GetResult

/-- Errors of `GetValuesFromSources`, one constructor per `return` site. -/
inductive TemplateError where
  | namespaceMismatch (src srcNs tmplNs : String)
  | noNamespace (name : String)
  | watching (e : String)
  | gettingSourceObject (name : String) (notFound : Bool) (e : String)
  | gettingValue (key name : String)
  | missingValue (name key : String)
  | checkingDuplicate (dest : String)
  | duplicateDestination (dest : String)
  | settingNestedField (dest : String)
deriving Repr

/-- Helper for `goSplit`: accumulate the current segment until the next
    separator. -/
def goSplitAux (sep : Char) : List Char → List Char → List String
  | [], acc => [⟨acc.reverse⟩]
  | c :: rest, acc =>
    if c = sep then ⟨acc.reverse⟩ :: goSplitAux sep rest []
    else goSplitAux sep rest (c :: acc)

/-- Go `strings.Split(s, sep)` for a one-character separator; always returns
    at least one element. -/
def goSplit (s : String) (sep : Char) : List String :=
  goSplitAux sep s.data []

/-- The inner item loop: copy the value at each item's dot-separated source
    path, reject a missing key, reject a destination that already holds a
    value in the accumulated map, then write the value at the destination. -/
def processItems (srcObj : Unstructured) :
    List ObjectTemplateSourceItem → List (String × Value) →
    Except TemplateError (List (String × Value))
  | [], sources => .ok sources
  | item :: rest, sources =>
    match nestedFieldNoCopy (.obj srcObj.Object) (goSplit item.key '.') with
    | .notAMap => .error (.gettingValue item.key srcObj.getName)
    | .absent => .error (.missingValue srcObj.getName item.key)
    | .found value =>
      match nestedFieldNoCopy (.obj sources) (goSplit item.destination '.') with
      | .notAMap => .error (.checkingDuplicate item.destination)
      | .found _ => .error (.duplicateDestination item.destination)
      | .absent =>
        match setNestedField sources value (goSplit item.destination '.') with
        | none => .error (.settingNestedField item.destination)
        | some sources' => processItems srcObj rest sources'

/-- The outer source loop: build the source stub with the declared kind and
    name, resolve its namespace against the template's, watch, read it from
    the cache — every read error propagates, the `Optional` field of the
    source is never consulted — and fold its items into the map. -/
def processSources (env : TemplateEnv) (tmplNamespace : String) :
    List ObjectTemplateSource → List (String × Value) →
    Except TemplateError (List (String × Value))
  | [], sources => .ok sources
  | src :: rest, sources =>
    let sourceObj : Unstructured := (Unstructured.mk []).setName src.name
    let sourceObj := sourceObj.setKind src.kind
    if tmplNamespace ≠ "" ∧ src.nspace ≠ "" ∧ tmplNamespace ≠ src.nspace then
      .error (.namespaceMismatch src.name src.nspace tmplNamespace)
    else
      let resolved : Except TemplateError Unstructured :=
        if tmplNamespace ≠ "" then .ok (sourceObj.setNamespace tmplNamespace)
        else if src.nspace ≠ "" then .ok (sourceObj.setNamespace src.nspace)
        else .error (.noNamespace src.name)
      match resolved with
      | .error e => .error e
      | .ok sourceObj =>
        match env.watchErr sourceObj with
        | some e => .error (.watching e)
        | none =>
          match env.get sourceObj with
          | .errNotFound =>
            .error (.gettingSourceObject sourceObj.getName true "not found")
          | .errOther e => .error (.gettingSourceObject sourceObj.getName false e)
          | .ok fetched =>
            match processItems fetched src.items sources with
            | .error e => .error e
            | .ok sources' => processSources env tmplNamespace rest sources'

/-- Embeds `GetValuesFromSources(ctx, objectTemplate, sources)` with the fresh
    (empty) sources document `Reconcile` passes in. -/
def GetValuesFromSources (env : TemplateEnv) (tmplNamespace : String)
    (srcs : List ObjectTemplateSource) :
    Except TemplateError (List (String × Value)) :=
  processSources env tmplNamespace srcs []

/-! ## HostedCluster controller

Two revisions of the controller are present in the sources: the revision
that gates on the `Available` condition (whose `desiredPackage` sets no
labels) and the revision that labels the package with the dynamic-cache
label (whose `Reconcile` does not gate on any condition).  Both
`desiredPackage` variants are embedded. -/

/-- Embeds `metav1.OwnerReference`. -/
structure OwnerReference where
  apiVersion : String
  kind : String
  name : String
  uid : String
  controller : Bool
  blockOwnerDeletion : Bool
deriving Repr, DecidableEq

/-- Embeds `corev1alpha1.Package`: object meta plus `spec.image`. -/
structure PackageObj where
  name : String
  nspace : String
  labels : StringMap
  ownerReferences : List OwnerReference
  image : String
deriving Repr, DecidableEq

/-- Embeds `desiredPackage` of the revision that gates on `Available`: name
    `<cluster-name>_remote_phase_manager`, the cluster's namespace, the
    configured image, and no labels. -/
def desiredPackagePart005 (image : String) (cluster : Unstructured) : PackageObj :=
  { name := cluster.getName ++ "_remote_phase_manager"
    nspace := cluster.getNamespace
    labels := []
    ownerReferences := []
    image := image }

/-- Embeds `desiredPackage` of the other revision: identical but carrying the
    mandatory dynamic-cache label. -/
def desiredPackagePart002 (image : String) (cluster : Unstructured) : PackageObj :=
  { name := cluster.getName ++ "_remote_phase_manager"
    nspace := cluster.getNamespace
    labels := [(DynamicCacheLabel, "True")]
    ownerReferences := []
    image := image }

/-- The owner reference `controllerutil.SetControllerReference` builds for
    the HostedCluster (its GVK is carried by the unstructured object built
    in `newHostedCluster`: `hypershift.openshift.io/v1alpha1 HostedCluster`). -/
def hostedClusterOwnerRef (cluster : Unstructured) : OwnerReference :=
  { apiVersion := "hypershift.openshift.io/v1alpha1"
    kind := "HostedCluster"
    name := cluster.getName
    uid := cluster.getUID
    controller := true
    blockOwnerDeletion := true }

/-- Embeds `controllerutil.SetControllerReference(owner, controlled, scheme)`:
    refuse when a different controller already claims the object, otherwise
    upsert the controller reference.  (`desiredPackage` hands it a fresh
    package with no owner references.) -/
def upsertOwnerRef (ref : OwnerReference) :
    List OwnerReference → List OwnerReference
  | [] => [ref]
  | r :: rest =>
    if r.apiVersion = ref.apiVersion ∧ r.kind = ref.kind ∧ r.name = ref.name then
      ref :: rest
    else r :: upsertOwnerRef ref rest

def setControllerReferenceCU (cluster : Unstructured) (pkg : PackageObj) :
    Except String PackageObj :=
  let ref := hostedClusterOwnerRef cluster
  match pkg.ownerReferences.find? (fun r => r.controller) with
  | some existing =>
    if existing.apiVersion = ref.apiVersion ∧ existing.kind = ref.kind ∧
        existing.name = ref.name then
      .ok { pkg with ownerReferences := upsertOwnerRef ref pkg.ownerReferences }
    else .error "object already owned by another controller"
  | none =>
    .ok { pkg with ownerReferences := upsertOwnerRef ref pkg.ownerReferences }

/-- Embeds `isHostedClusterReady(conds)`: scan for the first `Available` condition
    and report whether its status is `True`; stop at the first match. -/
def isHostedClusterReady : List Condition → Bool
  | [] => false
  | c :: rest =>
    if c.type = "Available" then decide (c.status = "True")
    else isHostedClusterReady rest

/-- Outcome of fetching the existing `Package` (its content is unused). -/
inductive PackageGetResult where
  | ok
  | errNotFound
  | errOther (e : String)

/-- A write of the HostedCluster controller. -/
inductive PkgWrite where
  | create (pkg : PackageObj)
deriving Repr, DecidableEq

/-- The cluster state the HostedCluster `Reconcile` runs against.
    `conditionsResult` is the adapter's `GetConditions()` answer — the
    adapter revision this controller revision compiles against is not among
    the embedded sources, so its `(conds, err)` result is injected. -/
structure HCEnv where
  getCluster : GetResult
  conditionsResult : Except String (List Condition)
  getPackage : PackageGetResult
  createErr : Option String

/-- Embeds `HostedClusterController.Reconcile` of the revision that gates on the
    `Available` condition: fetch the HostedCluster (NotFound exits cleanly),
    return without error when not ready, otherwise build the desired
    package, set the controller reference and create it only when absent. -/
def HostedClusterReconcile (image : String) (env : HCEnv) :
    Except String (List PkgWrite) :=
  match env.getCluster with
  | .errNotFound => .ok []
  | .errOther e => .error e
  | .ok cluster =>
    match env.conditionsResult with
    | .error e => .error ("getting hostedcluster conditions: " ++ e)
    | .ok conds =>
      if !isHostedClusterReady conds then .ok []
      else
        match setControllerReferenceCU cluster (desiredPackagePart005 image cluster) with
        | .error e => .error ("setting controller reference: " ++ e)
        | .ok desiredPackage =>
          match env.getPackage with
          | .errNotFound =>
            match env.createErr with
            | some e => .error ("creating Package: " ++ e)
            | none => .ok [.create desiredPackage]
          | .errOther e => .error ("getting Package: " ++ e)
          | .ok => .ok []

/-! ## Helper lemmas -/

theorem lookupField_insertField_self (fs : List (String × Value)) (k : String)
    (v : Value) : lookupField (insertField fs k v) k = some v := by
  induction fs with
  | nil => simp [insertField, lookupField]
  | cons kv rest ih =>
    by_cases h : kv.1 = k
    · simp [insertField, h, lookupField]
    · simp [insertField, h, lookupField, ih]

theorem lookupField_insertField_ne (fs : List (String × Value)) (k k' : String)
    (v : Value) (h : k ≠ k') :
    lookupField (insertField fs k v) k' = lookupField fs k' := by
  induction fs with
  | nil => simp [insertField, lookupField, h]
  | cons kv rest ih =>
    obtain ⟨a, b⟩ := kv
    by_cases hk : a = k
    · subst hk
      have h1 : insertField ((a, b) :: rest) a v = (a, v) :: rest := by
        simp [insertField]
      rw [h1]
      simp [lookupField, h]
    · have h1 : insertField ((a, b) :: rest) k v = (a, b) :: insertField rest k v := by
        simp [insertField, hk]
      rw [h1]
      by_cases ha : a = k'
      · simp [lookupField, ha]
      · simp [lookupField, ha, ih]

theorem smLookup_smInsert_self (m : StringMap) (k v : String) :
    smLookup (smInsert m k v) k = some v := by
  induction m with
  | nil => simp [smInsert, smLookup]
  | cons kv rest ih =>
    by_cases h : kv.1 = k
    · simp [smInsert, h, smLookup]
    · simp [smInsert, h, smLookup, ih]

theorem decodeStringMap_encode (m : StringMap) :
    decodeStringMap (m.map fun kv => (kv.1, .str kv.2)) = some m := by
  induction m with
  | nil => simp [decodeStringMap]
  | cons kv rest ih => simp [decodeStringMap, ih]

/-! ## C1: the adoption decision -/

/-- The previous-revision control test exactly as the claim words it: some
    member of the previous list controls the object, or some remote-phase
    delegate of a member controls it. -/
def specControlledByPrevious (strat : OwnerStrategy) (obj : Unstructured)
    (previous : List PreviousObjectSet) : Bool :=
  previous.any fun prev =>
    strat.isController prev.clientObject obj ||
    prev.remotePhases.any fun remote =>
      strat.isController
        (potentialRemoteOwner
          (if prev.kind.startsWith "Cluster" then "ClusterObjectSetPhase"
           else "ObjectSetPhase") prev remote) obj

/-- The six-step adoption procedure exactly as the claim states it, with the
    object's parsed revision `ro` given. -/
def specSixStepCheck (forceAdoptionEnv : String) (strat : OwnerStrategy)
    (owner : PhaseObjectOwner) (obj : Unstructured)
    (previous : List PreviousObjectSet) (ro : Int) : Except CheckError Bool :=
  if forceAdoptionEnv.length > 0 then .ok true
  else if strat.isController owner.clientObject obj then .ok false
  else if ro > owner.revision then .ok false
  else if !specControlledByPrevious strat obj previous then
    .error .notOwnedByPreviousRevision
  else if ro = owner.revision then .error .revisionCollision
  else .ok true

theorem isControlledByPreviousRevision_eq_spec (strat : OwnerStrategy)
    (obj : Unstructured) (previous : List PreviousObjectSet) :
    isControlledByPreviousRevision strat obj previous =
      specControlledByPrevious strat obj previous := by
  unfold isControlledByPreviousRevision specControlledByPrevious
  induction previous with
  | nil => rfl
  | cons prev rest ih =>
    simp only [List.any_cons, ih]
    congr 1
    cases h : prev.remotePhases with
    | nil => simp [h]
    | cons a l => simp [h]

/-- C1. `defaultAdoptionChecker.Check`, given that the object's revision
    annotation parses to `ro`, returns exactly what the six-step procedure of
    the claim prescribes: adopt under the force-adoption environment
    override; otherwise no-op when the owner already controls the object;
    otherwise no-op when `ro` exceeds the owner's revision; otherwise the
    NotOwnedByPreviousRevision error when neither a previous object set nor
    one of their remote-phase delegates controls the object; otherwise the
    RevisionCollision error when `ro` equals the owner's revision; otherwise
    adopt. -/
theorem check_follows_six_step_procedure (forceAdoptionEnv : String)
    (strat : OwnerStrategy) (owner : PhaseObjectOwner) (obj : Unstructured)
    (previous : List PreviousObjectSet) (ro : Int)
    (h : getObjectRevision obj = .ok ro) :
    Check forceAdoptionEnv strat owner obj previous =
      specSixStepCheck forceAdoptionEnv strat owner obj previous ro := by
  unfold Check specSixStepCheck
  rw [h, isControlledByPreviousRevision_eq_spec]

/-- Witness for C1 at a concrete input: an object annotated with revision 1,
    an owner at revision 2 that does not control it, and a previous object
    set that does — the checker adopts. -/
def c1Strategy : OwnerStrategy :=
  { isController := fun o obj => o.getUID ≠ "" && obj.getUID == o.getUID
    releaseController := id
    setControllerReference := fun _ obj => .ok obj
    removeOwner := fun _ obj => obj
    ownerPatch := fun _ => .ok .null }

def c1Obj : Unstructured :=
  ⟨[("metadata", .obj
      [("uid", .str "prev-uid"),
       ("annotations", .obj [(revisionAnnotationKey, .str "1")])])]⟩

def c1Owner : PhaseObjectOwner :=
  { clientObject := ⟨[("metadata", .obj [("uid", .str "owner-uid")])]⟩
    revision := 2
    isPaused := false }

def c1Previous : List PreviousObjectSet :=
  [{ clientObject := ⟨[("metadata", .obj [("uid", .str "prev-uid")])]⟩
     kind := "ObjectSet"
     remotePhases := [] }]

theorem check_follows_six_step_procedure_witness :
    Check "" c1Strategy c1Owner c1Obj c1Previous = .ok true ∧
      specSixStepCheck "" c1Strategy c1Owner c1Obj c1Previous 1 = .ok true := by
  have h := check_follows_six_step_procedure "" c1Strategy c1Owner c1Obj
    c1Previous 1 (by rfl)
  exact ⟨by rw [h]; rfl, by rfl⟩

/-! ## C2: objects of newer revisions are never stolen -/

/-- C2. For every owner and cached object whose revision annotation
    parses to a revision strictly greater than the owner's, when neither the
    owner already controls the object nor the force-adoption override is
    set, `reconcileObject` issues no write at all and returns the cached
    object unchanged (in particular with its owner references unchanged). -/
theorem newer_revision_never_stolen (strat : OwnerStrategy)
    (createErr mergePatchErr applyPatchErr : Option String)
    (owner : PhaseObjectOwner) (desiredObj currentObj : Unstructured)
    (previous : List PreviousObjectSet) (ro : Int)
    (hrev : getObjectRevision currentObj = .ok ro)
    (hnewer : ro > owner.revision)
    (hctl : strat.isController owner.clientObject currentObj = false) :
    reconcileObject strat "" (.ok currentObj) createErr mergePatchErr
      applyPatchErr owner desiredObj previous = .ok (currentObj, []) := by
  have hcheck : Check "" strat owner currentObj previous = .ok false := by
    unfold Check
    rw [hrev]
    simp [hctl, hnewer]
  unfold reconcileObject
  simp only [hcheck, hctl]
  simp [hctl]

/-- Witness for C2: an object annotated with revision 5 against an owner at
    revision 2 that does not control it — the reconcile returns it unchanged
    with no writes. -/
def c2Obj : Unstructured :=
  ⟨[("metadata", .obj
      [("uid", .str "other-uid"),
       ("annotations", .obj [(revisionAnnotationKey, .str "5")])])]⟩

theorem newer_revision_never_stolen_witness :
    reconcileObject c1Strategy "" (.ok c2Obj) none none none c1Owner
      (⟨[]⟩ : Unstructured) [] = .ok (c2Obj, []) :=
  newer_revision_never_stolen c1Strategy none none none c1Owner ⟨[]⟩ c2Obj []
    5 (by rfl) (by decide) (by rfl)

/-! ## C6: `getObjectRevision` on absent and on unparsable annotations

The claim asserts that an unparsable annotation also yields `(0, nil)`; the
code returns `strconv.ParseInt`'s error in that case, so the claim fails on
an object annotated with a non-numeric revision. -/

def c6Obj : Unstructured :=
  ⟨[("metadata", .obj
      [("annotations", .obj [(revisionAnnotationKey, .str "not-an-int")])])]⟩

/-- C6 counterexample. On an object whose revision annotation is the
    unparsable string `not-an-int`, `getObjectRevision` returns a parse
    error — not `(0, nil)` as the claim states. -/
theorem getObjectRevision_unparsable_errors :
    getObjectRevision c6Obj = .error .malformed ∧
      getObjectRevision c6Obj ≠ .ok 0 := by
  constructor
  · rfl
  · intro hcontra
    simpa using hcontra.symm.trans (by rfl : getObjectRevision c6Obj = .error .malformed)

/-- C6 amended. `getObjectRevision` returns 0 with no error when the
    annotation map is nil, when the revision annotation is missing, and when
    its value is the empty string; when the value is non-empty and cannot be
    parsed as a base-10 64-bit integer it returns the parse error. -/
theorem getObjectRevision_amended :
    (∀ obj : Unstructured, obj.getAnnotations = none →
      getObjectRevision obj = .ok 0) ∧
    (∀ (obj : Unstructured) (a : StringMap), obj.getAnnotations = some a →
      smLookup a revisionAnnotationKey = none → getObjectRevision obj = .ok 0) ∧
    (∀ (obj : Unstructured) (a : StringMap), obj.getAnnotations = some a →
      smLookup a revisionAnnotationKey = some "" → getObjectRevision obj = .ok 0) ∧
    (∀ (obj : Unstructured) (a : StringMap) (s : String) (e : ParseIntError),
      obj.getAnnotations = some a → smLookup a revisionAnnotationKey = some s →
      s.length ≠ 0 → parseInt64 s = .error e →
      getObjectRevision obj = .error e) := by
  refine ⟨?_, ?_, ?_, ?_⟩
  · intro obj h
    unfold getObjectRevision
    rw [h]
  · intro obj a h hl
    unfold getObjectRevision
    rw [h]
    simp [hl]
  · intro obj a h hl
    unfold getObjectRevision
    rw [h]
    simp [hl]
  · intro obj a s e h hl hs hp
    unfold getObjectRevision
    rw [h]
    simp [hl, hs, hp]

/-- Witness for the amended C6: the nil-annotation case at the empty object
    and the error case at `c6Obj`. -/
theorem getObjectRevision_amended_witness :
    getObjectRevision (⟨[]⟩ : Unstructured) = .ok 0 ∧
      getObjectRevision c6Obj = .error .malformed := by
  constructor
  · exact getObjectRevision_amended.1 ⟨[]⟩ (by rfl)
  · exact getObjectRevision_amended.2.2.2 c6Obj
      [(revisionAnnotationKey, "not-an-int")] "not-an-int" .malformed (by rfl)
      (by rfl) (by decide) (by rfl)

/-! ## C10: `setObjectRevision` / `getObjectRevision` round-trip -/

theorem digitVal_digitChar (d : Nat) (h : d < 10) :
    digitVal (Nat.digitChar d) = some d := by
  interval_cases d <;> decide

theorem formatNat_ne_nil (n : Nat) : formatNat n ≠ [] := by
  rw [formatNat]
  split <;> simp

theorem parseDigits_append (xs ys : List Char) (acc : Nat) :
    parseDigits (xs ++ ys) acc =
      match parseDigits xs acc with
      | some a => parseDigits ys a
      | none => none := by
  induction xs generalizing acc with
  | nil => simp [parseDigits]
  | cons c rest ih =>
    simp only [List.cons_append, parseDigits]
    cases digitVal c with
    | none => simp
    | some d => simp [ih]

theorem parseDigits_formatNat (n : Nat) :
    ∀ acc : Nat, parseDigits (formatNat n) acc =
      some (acc * 10 ^ (formatNat n).length + n) := by
  induction n using Nat.strong_induction_on with
  | _ n ih =>
    intro acc
    rw [formatNat]
    by_cases h : n < 10
    · simp only [h, dite_true]
      simp [parseDigits, digitVal_digitChar n h]
    · simp only [h, dite_false]
      have hdiv : n / 10 < n :=
        Nat.div_lt_self (by omega) (by norm_num)
      rw [parseDigits_append, ih (n / 10) hdiv acc]
      have hmod : n % 10 < 10 := Nat.mod_lt n (by norm_num)
      simp only [parseDigits, digitVal_digitChar (n % 10) hmod]
      have : (acc * 10 ^ (formatNat (n / 10)).length + n / 10) * 10 + n % 10 =
          acc * 10 ^ ((formatNat (n / 10)).length + 1) + n := by
        rw [pow_succ]
        have := Nat.div_add_mod n 10
        ring_nf
        omega
      simp [List.length_append, this]

theorem formatNat_all_digits (n : Nat) :
    ∀ c ∈ formatNat n, (digitVal c).isSome := by
  induction n using Nat.strong_induction_on with
  | _ n ih =>
    intro c hc
    rw [formatNat] at hc
    by_cases h : n < 10
    · simp only [h, dite_true, List.mem_singleton] at hc
      subst hc
      simp [digitVal_digitChar n h]
    · simp only [h, dite_false, List.mem_append, List.mem_singleton] at hc
      rcases hc with hc | hc
      · exact ih (n / 10) (Nat.div_lt_self (by omega) (by norm_num)) c hc
      · subst hc
        simp [digitVal_digitChar (n % 10) (Nat.mod_lt n (by norm_num))]

/-- Embeds `strconv.ParseInt` parses `fmt.Sprintf("%d", r)` back to `r` for every
    in-range `int64` value. -/
theorem parseInt64_formatInt (r : Int) (hlo : -(2 ^ 63) ≤ r)
    (hhi : r < 2 ^ 63) : parseInt64 (formatInt r) = .ok r := by
  by_cases hneg : r < 0
  · have hfmt : formatInt r = ⟨'-' :: formatNat r.natAbs⟩ := by
      unfold formatInt
      simp [hneg]
    rw [hfmt]
    unfold parseInt64
    simp only [String.data]
    have hne := formatNat_ne_nil r.natAbs
    have hparsed := parseDigits_formatNat r.natAbs 0
    have hnotgt : ¬ (r.natAbs > 2 ^ 63) := by
      omega
    simp only [List.isEmpty_eq_true, hne, if_false]
    simp [hparsed, hnotgt]
    rw [if_neg hne]
    rw [if_neg (show ¬ (9223372036854775808 < r.natAbs) from by omega)]
    rw [abs_of_neg hneg]
    simp
  · push_neg at hneg
    have hfmt : formatInt r = ⟨formatNat r.toNat⟩ := by
      unfold formatInt
      simp [not_lt.mpr hneg]
    rw [hfmt]
    unfold parseInt64
    simp only [String.data]
    obtain ⟨c, rest, hcr⟩ : ∃ c rest, formatNat r.toNat = c :: rest := by
      cases h : formatNat r.toNat with
      | nil => exact absurd h (formatNat_ne_nil _)
      | cons c rest => exact ⟨c, rest, rfl⟩
    have hcmem : c ∈ formatNat r.toNat := by rw [hcr]; simp
    have hcdigit := formatNat_all_digits r.toNat c hcmem
    have hcplus : ¬ (c = '+') := by
      intro hcon; rw [hcon] at hcdigit; simp [digitVal] at hcdigit
    have hcminus : ¬ (c = '-') := by
      intro hcon; rw [hcon] at hcdigit; simp [digitVal] at hcdigit
    rw [hcr]
    have hparsed := parseDigits_formatNat r.toNat 0
    rw [hcr] at hparsed
    have hlt : ¬ ((r.toNat : Nat) ≥ 2 ^ 63) := by
      omega
    simp [hcplus, hcminus, hparsed, hlt, Int.toNat_of_nonneg hneg]
    omega

/-- Setting a metadata string map and reading it back through
    `NestedStringMap` recovers it, for objects with well-formed metadata. -/
theorem getMetadataStringMap_set (u : Unstructured) (key : String)
    (sm : StringMap) (h : metadataSettable u = true) :
    getMetadataStringMap (setMetadataStringMap u key (some sm)) key = some sm := by
  unfold metadataSettable at h
  unfold setMetadataStringMap getMetadataStringMap
  cases hmeta : lookupField u.Object "metadata" with
  | none =>
    simp only [setNestedField, hmeta, Option.map_some', Option.getD_some]
    simp only [nestedFieldNoCopy, lookupField_insertField_self]
    simp [insertField, lookupField, encodeStringMap, decodeStringMap_encode]
  | some mv =>
    cases mv with
    | obj sub =>
      simp only [setNestedField, hmeta, Option.map_some', Option.getD_some]
      simp only [nestedFieldNoCopy, lookupField_insertField_self]
      simp [encodeStringMap, decodeStringMap_encode]
    | null => rw [hmeta] at h; simp at h
    | bool b => rw [hmeta] at h; simp at h
    | int n => rw [hmeta] at h; simp at h
    | str s => rw [hmeta] at h; simp at h
    | arr es => rw [hmeta] at h; simp at h

/-- After `setObjectRevision`, the annotations decode to the stamped map. -/
theorem getAnnotations_setObjectRevision (obj : Unstructured) (r : Int)
    (h : metadataSettable obj = true) :
    (setObjectRevision obj r).getAnnotations =
      some (smInsert (obj.getAnnotations.getD []) revisionAnnotationKey
        (formatInt r)) :=
  getMetadataStringMap_set obj "annotations"
    (smInsert (obj.getAnnotations.getD []) revisionAnnotationKey (formatInt r)) h

theorem formatInt_length_ne_zero (r : Int) : (formatInt r).length ≠ 0 := by
  unfold formatInt
  by_cases h : r < 0
  · simp [h, String.length]
  · simp only [h, if_false]
    have := formatNat_ne_nil r.toNat
    simp [String.length]
    intro hcon
    exact this (by simpa using hcon)

/-- C10. For every object with well-formed metadata and every in-range
    `int64` revision `r`, `setObjectRevision` followed by `getObjectRevision`
    yields `(r, nil)`: the stamp overwrites any previous annotation value and
    round-trips exactly through the base-10 encoding. -/
theorem set_then_get_object_revision (obj : Unstructured) (r : Int)
    (hmeta : metadataSettable obj = true) (hlo : -(2 ^ 63) ≤ r)
    (hhi : r < 2 ^ 63) :
    getObjectRevision (setObjectRevision obj r) = .ok r := by
  unfold getObjectRevision
  rw [getAnnotations_setObjectRevision obj r hmeta]
  simp [smLookup_smInsert_self, formatInt_length_ne_zero r,
    parseInt64_formatInt r hlo hhi]

/-- Witness for C10: stamping revision `-3` onto an object that already
    carries the unparsable annotation value reads back as `-3`. -/
theorem set_then_get_object_revision_witness :
    getObjectRevision (setObjectRevision c6Obj (-3)) = .ok (-3) :=
  set_then_get_object_revision c6Obj (-3) (by rfl) (by decide) (by decide)

/-! ## C3: the patcher writes iff the patch is not dominated by the base -/

/-- The patch body as the claim describes it: `desired` after overlaying
    `updated`'s existing labels and annotations (keys of `desired` winning),
    with `status` and `metadata.ownerReferences` removed. -/
def patchBody (desiredObj updatedObj : Unstructured) : Unstructured :=
  let desired := desiredObj.setLabels
    (mergeKeysFrom updatedObj.getLabels desiredObj.getLabels)
  let desired := desired.setAnnotations
    (mergeKeysFrom updatedObj.getAnnotations desired.getAnnotations)
  let patch : Unstructured := ⟨removeNestedField desired.Object ["status"]⟩
  ⟨removeNestedField patch.Object ["metadata", "ownerReferences"]⟩

/-- The base as the claim describes it: `updated` with `status` removed. -/
def baseBody (updatedObj : Unstructured) : Unstructured :=
  ⟨removeNestedField updatedObj.Object ["status"]⟩

/-- C3. With a healthy writer, the patcher issues a write if and only if
    the patch body is not a deep-derivative semantic sub-tree of the base;
    when the patch is dominated by the base no write is issued — hence a
    reconcile whose desired state is already dominated by the live state
    performs zero writes. -/
theorem patcher_writes_iff_patch_not_dominated :
    (∀ desiredObj currentObj updatedObj writes,
      defaultPatcherPatch none desiredObj currentObj updatedObj = .ok writes →
      (writes ≠ [] ↔
        deepDerivative (.obj (patchBody desiredObj updatedObj).Object)
          (.obj (baseBody updatedObj).Object) = false)) ∧
    (∀ desiredObj currentObj updatedObj,
      deepDerivative (.obj (patchBody desiredObj updatedObj).Object)
        (.obj (baseBody updatedObj).Object) = true →
      defaultPatcherPatch none desiredObj currentObj updatedObj = .ok []) := by
  have hchar : ∀ desiredObj currentObj updatedObj : Unstructured,
      defaultPatcherPatch none desiredObj currentObj updatedObj =
        if deepDerivative (.obj (patchBody desiredObj updatedObj).Object)
            (.obj (baseBody updatedObj).Object) then .ok []
        else .ok [.applyPatch updatedObj
          ((patchBody desiredObj updatedObj).setResourceVersion
            currentObj.getResourceVersion)] := by
    intro desiredObj currentObj updatedObj
    unfold defaultPatcherPatch patchBody baseBody
    cases hdd : deepDerivative
        (.obj (removeNestedField
          (removeNestedField
            ((desiredObj.setLabels
                (mergeKeysFrom updatedObj.getLabels desiredObj.getLabels)).setAnnotations
              (mergeKeysFrom updatedObj.getAnnotations
                (desiredObj.setLabels
                  (mergeKeysFrom updatedObj.getLabels
                    desiredObj.getLabels)).getAnnotations)).Object
            ["status"]) ["metadata", "ownerReferences"]))
        (.obj (removeNestedField updatedObj.Object ["status"])) with
    | true => simp [hdd]
    | false => simp [hdd]
  constructor
  · intro desiredObj currentObj updatedObj writes hw
    rw [hchar] at hw
    cases hdd : deepDerivative (.obj (patchBody desiredObj updatedObj).Object)
        (.obj (baseBody updatedObj).Object) with
    | true =>
      rw [hdd, if_pos rfl] at hw
      cases hw
      simp
    | false =>
      rw [hdd] at hw
      simp at hw
      rw [← hw]
      simp
  · intro desiredObj currentObj updatedObj hdd
    rw [hchar, hdd, if_pos rfl]

/-- Witness for C3: on identical empty objects the patch is dominated by the
    base and the patcher issues zero writes. -/
theorem patcher_writes_iff_patch_not_dominated_witness :
    defaultPatcherPatch none ⟨[]⟩ ⟨[]⟩ ⟨[]⟩ = .ok [] :=
  patcher_writes_iff_patch_not_dominated.2 ⟨[]⟩ ⟨[]⟩ ⟨[]⟩ (by rfl)

/-! ## C4: condition mapping -/

/-- Every condition in the output of `setStatusCondition` is an original
    condition or the written one. -/
theorem setStatusCondition_mem (conds : List Condition) (nc c : Condition)
    (h : c ∈ setStatusCondition conds nc) : c ∈ conds ∨ c = nc := by
  induction conds with
  | nil =>
    simp [setStatusCondition] at h
    exact Or.inr h
  | cons c0 rest ih =>
    unfold setStatusCondition at h
    by_cases ht : c0.type = nc.type
    · rw [if_pos ht] at h
      rcases List.mem_cons.mp h with h | h
      · exact Or.inr h
      · exact Or.inl (List.mem_cons_of_mem _ h)
    · rw [if_neg ht] at h
      rcases List.mem_cons.mp h with h | h
      · exact Or.inl (h ▸ List.mem_cons_self _ _)
      · rcases ih h with h | h
        · exact Or.inl (List.mem_cons_of_mem _ h)
        · exact Or.inr h

/-- Conditions the object-condition fold can produce: original owner
    conditions, or mapped copies of fresh object conditions. -/
theorem mapConditions_fold_mem (typeMap : StringMap) (objGeneration : Int)
    (ownerGeneration : Int) (conds : List Condition) :
    ∀ (acc : List Condition) (c : Condition),
      c ∈ conds.foldl
        (fun acc condition =>
          if condition.observedGeneration ≠ (0 : Int) ∧
              condition.observedGeneration ≠ objGeneration then
            (acc : List Condition)
          else
            match smLookup typeMap condition.type with
            | none => acc
            | some destType =>
              setStatusCondition acc
                ⟨destType, condition.status, condition.reason,
                  condition.message, ownerGeneration⟩) acc →
      c ∈ acc ∨ ∃ src ∈ conds,
        (src.observedGeneration = 0 ∨ src.observedGeneration = objGeneration) ∧
        smLookup typeMap src.type = some c.type ∧
        c = ⟨c.type, src.status, src.reason, src.message, ownerGeneration⟩ := by
  induction conds with
  | nil => intro acc c h; exact Or.inl h
  | cons src rest ih =>
    intro acc c h
    simp only [List.foldl_cons] at h
    by_cases hfresh : src.observedGeneration ≠ (0 : Int) ∧
        src.observedGeneration ≠ objGeneration
    · rw [if_pos hfresh] at h
      rcases ih _ c h with h | ⟨s, hs, hrest⟩
      · exact Or.inl h
      · exact Or.inr ⟨s, List.mem_cons_of_mem _ hs, hrest⟩
    · rw [if_neg hfresh] at h
      push_neg at hfresh
      cases hlk : smLookup typeMap src.type with
      | none =>
        rw [hlk] at h
        rcases ih _ c h with h | ⟨s, hs, hrest⟩
        · exact Or.inl h
        · exact Or.inr ⟨s, List.mem_cons_of_mem _ hs, hrest⟩
      | some destType =>
        rw [hlk] at h
        rcases ih _ c h with h | ⟨s, hs, hrest⟩
        · rcases setStatusCondition_mem _ _ _ h with h | h
          · exact Or.inl h
          · refine Or.inr ⟨src, List.mem_cons_self _ _, ?_, ?_, ?_⟩
            · by_cases hz : src.observedGeneration = 0
              · exact Or.inl hz
              · exact Or.inr (hfresh hz)
            · rw [h]; exact hlk
            · rw [h]
        · exact Or.inr ⟨s, List.mem_cons_of_mem _ hs, hrest⟩

/-- C4. Condition mapping leaves the owner's conditions unchanged when
    the mapping list is empty or `status.conditions` is absent; and every
    condition in the mapped result is either an original owner condition or
    a copy of a fresh object condition (observedGeneration 0 or equal to the
    object's generation) whose type is in the mapping, written under the
    mapped destination type with observedGeneration equal to the owner's
    generation. -/
theorem mapConditions_spec :
    (∀ (objGeneration ownerGeneration : Int)
        (objConditions : Option (List Condition))
        (ownerConditions : List Condition),
      mapConditions [] objGeneration objConditions ownerGeneration
        ownerConditions = ownerConditions) ∧
    (∀ (ms : List ConditionMapping) (objGeneration ownerGeneration : Int)
        (ownerConditions : List Condition),
      mapConditions ms objGeneration none ownerGeneration ownerConditions =
        ownerConditions) ∧
    (∀ (ms : List ConditionMapping) (objGeneration ownerGeneration : Int)
        (conds ownerConditions : List Condition) (c : Condition),
      c ∈ mapConditions ms objGeneration (some conds) ownerGeneration
          ownerConditions →
      c ∈ ownerConditions ∨ ∃ src ∈ conds,
        (src.observedGeneration = 0 ∨ src.observedGeneration = objGeneration) ∧
        smLookup (buildConditionTypeMap ms) src.type = some c.type ∧
        c = ⟨c.type, src.status, src.reason, src.message, ownerGeneration⟩) := by
  refine ⟨?_, ?_, ?_⟩
  · intro objGeneration ownerGeneration objConditions ownerConditions
    simp [mapConditions]
  · intro ms objGeneration ownerGeneration ownerConditions
    unfold mapConditions
    split
    · rfl
    · rfl
  · intro ms objGeneration ownerGeneration conds ownerConditions c h
    unfold mapConditions at h
    by_cases hms : ms.isEmpty
    · rw [if_pos hms] at h
      exact Or.inl h
    · rw [if_neg hms] at h
      exact mapConditions_fold_mem (buildConditionTypeMap ms) objGeneration
        ownerGeneration conds ownerConditions c h

/-- Witness for C4: a mapped fresh `Ready` condition lands on the owner as
    `myapp/Ready` with the owner's generation; stale ones are dropped. -/
theorem mapConditions_spec_witness :
    mapConditions [] 4 (some [⟨"Ready", "True", "ok", "", 4⟩]) 9 [] = [] ∧
      (⟨"myapp/Ready", "True", "ok", "", 9⟩ : Condition) ∈
        mapConditions [⟨"Ready", "myapp/Ready"⟩] 4
          (some [⟨"Ready", "True", "ok", "", 4⟩]) 9 [] ∧
      (∀ c ∈ mapConditions [⟨"Ready", "myapp/Ready"⟩] 4
          (some [⟨"Ready", "True", "ok", "", 4⟩]) 9 [],
        c ∈ ([] : List Condition) ∨ ∃ src ∈ [(⟨"Ready", "True", "ok", "", 4⟩ : Condition)],
          (src.observedGeneration = 0 ∨ src.observedGeneration = 4) ∧
          smLookup (buildConditionTypeMap [⟨"Ready", "myapp/Ready"⟩]) src.type =
            some c.type ∧
          c = ⟨c.type, src.status, src.reason, src.message, 9⟩) := by
  refine ⟨mapConditions_spec.1 4 9 (some [⟨"Ready", "True", "ok", "", 4⟩]) [], ?_, ?_⟩
  · decide
  · intro c hc
    exact mapConditions_spec.2.2 [⟨"Ready", "myapp/Ready"⟩] 4 9
      [⟨"Ready", "True", "ok", "", 4⟩] [] c hc

/-! ## C5: teardown counts an object done exactly as the claim says -/

/-- The claim's per-object classification: done iff the object is absent
    from the cache, or present but not controlled by the owner (its owner
    reference having been removed and the object updated), or controlled and
    the delete itself answers NotFound; a delete that succeeds does not
    count as done. -/
def countsDoneSpec (env : TeardownEnv) (strat : OwnerStrategy)
    (owner : PhaseObjectOwner) (phaseObject : Unstructured) : Bool :=
  match desiredObject strat owner phaseObject with
  | .error _ => false
  | .ok desiredObj =>
    match env.get desiredObj with
    | .errNotFound => true
    | .errOther _ => false
    | .ok currentObj =>
      if !strat.isController owner.clientObject currentObj then true
      else
        match env.delete currentObj with
        | .errNotFound => true
        | _ => false

/-- A successful `teardownPhaseObject` returns exactly the claim's
    classification. -/
theorem teardownPhaseObject_ok_eq_spec (env : TeardownEnv)
    (strat : OwnerStrategy) (owner : PhaseObjectOwner)
    (phaseObject : Unstructured) (b : Bool)
    (h : teardownPhaseObject env strat owner phaseObject = .ok b) :
    b = countsDoneSpec env strat owner phaseObject := by
  unfold teardownPhaseObject at h
  unfold countsDoneSpec
  cases hdes : desiredObject strat owner phaseObject with
  | error e => simp only [hdes] at h; cases h
  | ok desiredObj =>
    simp only [hdes] at h
    simp only [hdes]
    cases hw : env.watchErr desiredObj with
    | some e => simp only [hw] at h; cases h
    | none =>
      simp only [hw] at h
      cases hg : env.get desiredObj with
      | errNotFound => simp only [hg]; simp only [hg] at h; cases h; rfl
      | errOther e => simp only [hg] at h; cases h
      | ok currentObj =>
        simp only [hg]
        simp only [hg] at h
        by_cases hctl : strat.isController owner.clientObject currentObj
        · simp only [hctl, Bool.not_true, Bool.false_eq_true, if_false] at h ⊢
          cases hd : env.delete currentObj with
          | errNotFound => simp only [hd] at h; cases h; rfl
          | errOther e => simp only [hd] at h; cases h
          | ok => simp only [hd] at h; cases h; rfl
        · simp only [Bool.not_eq_true] at hctl
          simp only [hctl, Bool.not_false, if_true] at h ⊢
          cases hu : env.updateErr (strat.removeOwner owner.clientObject currentObj) with
          | some e => simp only [hu] at h; cases h
          | none => simp only [hu] at h; cases h; rfl

theorem teardownLoop_ok (env : TeardownEnv) (strat : OwnerStrategy)
    (owner : PhaseObjectOwner) (objs : List Unstructured)
    (h : ∀ o ∈ objs, ∃ b, teardownPhaseObject env strat owner o = .ok b) :
    teardownLoop env strat owner objs =
      .ok (objs.countP (countsDoneSpec env strat owner)) := by
  induction objs with
  | nil => simp [teardownLoop]
  | cons o rest ih =>
    obtain ⟨b, hb⟩ := h o (List.mem_cons_self o rest)
    have hbs := teardownPhaseObject_ok_eq_spec env strat owner o b hb
    unfold teardownLoop
    rw [hb, ih fun o' ho' => h o' (List.mem_cons_of_mem _ ho')]
    subst hbs
    cases hcd : countsDoneSpec env strat owner o
    · simp [List.countP_cons, hcd, Except.map]
    · simp [List.countP_cons, hcd, Except.map]

theorem countP_beq_length_eq_all {α : Type} (p : α → Bool) (l : List α) :
    (l.countP p == l.length) = l.all p := by
  cases hall : l.all p with
  | true =>
    have hcp : l.countP p = l.length :=
      List.countP_eq_length.mpr (by simpa [List.all_eq_true] using hall)
    simp [hcp]
  | false =>
    have hne : l.countP p ≠ l.length := by
      intro hcon
      have hforall := List.countP_eq_length.mp hcon
      have : l.all p = true := List.all_eq_true.mpr fun a ha => hforall a ha
      rw [this] at hall
      cases hall
    simp [hne]

/-- C5. `TeardownPhase` returns errors exactly when some
    `teardownPhaseObject` did, and otherwise returns done = true exactly
    when every object of the phase counts as done per the claim's
    classification (`countsDoneSpec`): absent from the cache, or present but
    not controlled by the owner, or controlled with the delete answering
    NotFound — a successful delete does not count. -/
theorem teardown_phase_spec :
    (∀ (env : TeardownEnv) (strat : OwnerStrategy) (owner : PhaseObjectOwner)
        (o : Unstructured) (b : Bool),
      teardownPhaseObject env strat owner o = .ok b →
      b = countsDoneSpec env strat owner o) ∧
    (∀ (env : TeardownEnv) (strat : OwnerStrategy) (owner : PhaseObjectOwner)
        (objs : List Unstructured),
      (∀ o ∈ objs, ∃ b, teardownPhaseObject env strat owner o = .ok b) →
      TeardownPhase env strat owner objs =
        .ok (objs.all (countsDoneSpec env strat owner))) ∧
    (∀ (env : TeardownEnv) (strat : OwnerStrategy) (owner : PhaseObjectOwner)
        (objs : List Unstructured) (e : String),
      TeardownPhase env strat owner objs = .error e →
      ∃ o ∈ objs, teardownPhaseObject env strat owner o = .error e) := by
  refine ⟨teardownPhaseObject_ok_eq_spec, ?_, ?_⟩
  · intro env strat owner objs h
    unfold TeardownPhase
    rw [teardownLoop_ok env strat owner objs h]
    simp only [Except.map]
    rw [countP_beq_length_eq_all]
  · intro env strat owner objs e h
    unfold TeardownPhase at h
    induction objs with
    | nil => simp [teardownLoop, Except.map] at h
    | cons o rest ih =>
      unfold teardownLoop at h
      cases ht : teardownPhaseObject env strat owner o with
      | error e' =>
        rw [ht] at h
        simp only [Except.map] at h
        cases h
        exact ⟨o, List.mem_cons_self o rest, ht⟩
      | ok done =>
        rw [ht] at h
        cases hl : teardownLoop env strat owner rest with
        | error e' =>
          rw [hl] at h
          simp only [Except.map, Option.map] at h
          cases h
          obtain ⟨o', ho', hto'⟩ := ih (by rw [hl]; rfl)
          exact ⟨o', List.mem_cons_of_mem _ ho', hto'⟩
        | ok c =>
          rw [hl] at h
          simp [Except.map] at h

/-- Witness environment for C5: object `a` is gone from the cache, object
    `b` is present, controlled by the owner, and deletes successfully. -/
def c5ObjA : Unstructured := ⟨[("metadata", .obj [("name", .str "a")])]⟩

def c5ObjB : Unstructured := ⟨[("metadata", .obj [("name", .str "b")])]⟩

def c5Current : Unstructured := ⟨[("metadata", .obj [("uid", .str "owner-uid")])]⟩

def c5Env : TeardownEnv :=
  { watchErr := fun _ => none
    get := fun d => if d.getName = "a" then .errNotFound else .ok c5Current
    updateErr := fun _ => none
    delete := fun _ => .ok }

/-- Witness for C5: the absent object counts done, the successfully deleted
    one does not, so the phase is not yet done. -/
theorem teardown_phase_spec_witness :
    TeardownPhase c5Env c1Strategy c1Owner [c5ObjA, c5ObjB] = .ok false := by
  have h := teardown_phase_spec.2.1 c5Env c1Strategy c1Owner [c5ObjA, c5ObjB]
    (by
      intro o ho
      simp only [List.mem_cons, List.not_mem_nil, or_false] at ho
      rcases ho with rfl | rfl
      · exact ⟨true, by rfl⟩
      · exact ⟨false, by rfl⟩)
  rw [h]
  rfl

/-! ## C9: the HostedCluster reconcile

The revision of `Reconcile` that gates on the `Available` condition builds
its package without any labels, so the claim's cache-label clause fails. -/

def c9Cluster : Unstructured :=
  ⟨[("metadata", .obj
      [("name", .str "c1"), ("namespace", .str "ns1"),
       ("uid", .str "hc-uid")])]⟩

def c9Env : HCEnv :=
  { getCluster := .ok c9Cluster
    conditionsResult := .ok [⟨"Available", "True", "", "", 0⟩]
    getPackage := .errNotFound
    createErr := none }

def c9Pkg : PackageObj :=
  { name := "c1_remote_phase_manager"
    nspace := "ns1"
    labels := []
    ownerReferences := [hostedClusterOwnerRef c9Cluster]
    image := "img" }

/-- C9 counterexample. On an available HostedCluster named `c1` the
    reconcile creates exactly one Package — correctly named, in the owner's
    namespace, with the configured image and a controller reference — but
    its label map is empty: the mandatory `cache=True` label the claim
    requires is absent. -/
theorem hosted_cluster_package_lacks_cache_label :
    HostedClusterReconcile "img" c9Env = .ok [.create c9Pkg] ∧
      smLookup c9Pkg.labels DynamicCacheLabel = none := ⟨rfl, rfl⟩

/-- C9 amended. The `Available`-gated Reconcile returns with no error
    and creates nothing when the `Available` condition is not `True`; when
    it is `True` it constructs a Package named
    `<owner-name>_remote_phase_manager` in the owner's namespace with
    `spec.image` equal to the configured image, an empty label map (no cache
    label), and a controller reference back to the HostedCluster, and
    creates it only if absent. -/
theorem hosted_cluster_reconcile_amended :
    (∀ (image : String) (env : HCEnv) (cluster : Unstructured)
        (conds : List Condition),
      env.getCluster = .ok cluster → env.conditionsResult = .ok conds →
      isHostedClusterReady conds = false →
      HostedClusterReconcile image env = .ok []) ∧
    (∀ (image : String) (env : HCEnv) (cluster : Unstructured)
        (conds : List Condition),
      env.getCluster = .ok cluster → env.conditionsResult = .ok conds →
      isHostedClusterReady conds = true → env.getPackage = .errNotFound →
      env.createErr = none →
      HostedClusterReconcile image env = .ok [.create
        { name := cluster.getName ++ "_remote_phase_manager"
          nspace := cluster.getNamespace
          labels := []
          ownerReferences := [hostedClusterOwnerRef cluster]
          image := image }]) ∧
    (∀ (image : String) (env : HCEnv) (cluster : Unstructured)
        (conds : List Condition),
      env.getCluster = .ok cluster → env.conditionsResult = .ok conds →
      isHostedClusterReady conds = true → env.getPackage = .ok →
      HostedClusterReconcile image env = .ok []) := by
  refine ⟨?_, ?_, ?_⟩
  · intro image env cluster conds hget hconds hready
    unfold HostedClusterReconcile
    simp only [hget, hconds, hready]
    rfl
  · intro image env cluster conds hget hconds hready hpkg hcreate
    unfold HostedClusterReconcile
    simp only [hget, hconds, hready, hpkg, hcreate]
    simp [setControllerReferenceCU, desiredPackagePart005, upsertOwnerRef,
      List.find?]
  · intro image env cluster conds hget hconds hready hpkg
    unfold HostedClusterReconcile
    simp only [hget, hconds, hready, hpkg]
    simp [setControllerReferenceCU, desiredPackagePart005, upsertOwnerRef,
      List.find?]

/-- Witness for the amended C9: the create case at the concrete available
    cluster, and the not-ready case when `Available` is `False`. -/
theorem hosted_cluster_reconcile_amended_witness :
    HostedClusterReconcile "img" c9Env = .ok [.create c9Pkg] ∧
      HostedClusterReconcile "img"
        { c9Env with conditionsResult := .ok [⟨"Available", "False", "", "", 0⟩] } =
        .ok [] := by
  constructor
  · have h := hosted_cluster_reconcile_amended.2.1 "img" c9Env c9Cluster
      [⟨"Available", "True", "", "", 0⟩] rfl rfl (by rfl) rfl rfl
    rw [h]
    rfl
  · exact hosted_cluster_reconcile_amended.1 "img"
      { c9Env with conditionsResult := .ok [⟨"Available", "False", "", "", 0⟩] }
      c9Cluster [⟨"Available", "False", "", "", 0⟩] rfl rfl (by rfl)

/-! ## C7: the `Optional` source flag is never honoured

The API documents `ObjectTemplateSource.Optional` as "the templated object
will still be applied if optional sources are not found", but
`GetValuesFromSources` propagates every cache read error without consulting
the flag. -/

def c7Source : ObjectTemplateSource :=
  { apiVersion := "v1"
    kind := "ConfigMap"
    nspace := ""
    name := "cm1"
    items := [{ key := "data.foo", destination := "config.foo" }]
    optional := true }

def c7Env : TemplateEnv :=
  { watchErr := fun _ => none
    get := fun _ => .errNotFound }

/-- C7. A NotFound read of a source marked `optional` aborts
    `GetValuesFromSources` with an error — identically to the non-optional
    case, demonstrating that the flag is ignored — contradicting the
    documented optional-source semantics. -/
theorem optional_source_notfound_still_fails :
    GetValuesFromSources c7Env "ns1" [c7Source] =
      .error (.gettingSourceObject "cm1" true "not found") ∧
    GetValuesFromSources c7Env "ns1" [{ c7Source with optional := false }] =
      .error (.gettingSourceObject "cm1" true "not found") := ⟨rfl, rfl⟩

/-! ## C8: duplicate destinations are rejected -/

/-- A destination path currently holds a value in the accumulated map. -/
def occupied (fs : List (String × Value)) (p : List String) : Bool :=
  match nestedFieldNoCopy (.obj fs) p with
  | .found _ => true
  | _ => false

theorem nestedFieldNoCopy_nil (v : Value) : nestedFieldNoCopy v [] = .found v := by
  cases v <;> rfl

/-- A successful `SetNestedField` makes its own path occupied. -/
theorem setNestedField_occupied (v : Value) :
    ∀ (q : List String) (fs fs' : List (String × Value)),
      setNestedField fs v q = some fs' → occupied fs' q = true := by
  intro q
  induction q with
  | nil => intro fs fs' h; cases h
  | cons f qrest ih =>
    intro fs fs' h
    cases qrest with
    | nil =>
      unfold setNestedField at h
      cases h
      unfold occupied nestedFieldNoCopy
      rw [lookupField_insertField_self]
      simp [nestedFieldNoCopy_nil]
    | cons g rest =>
      unfold setNestedField at h
      cases hlk : lookupField fs f with
      | none =>
        simp only [hlk] at h
        cases hsub : setNestedField [] v (g :: rest) with
        | none => simp only [hsub, Option.map_none'] at h; cases h
        | some sub' =>
          simp only [hsub, Option.map_some'] at h
          cases h
          unfold occupied nestedFieldNoCopy
          rw [lookupField_insertField_self]
          exact ih [] sub' hsub
      | some mv =>
        simp only [hlk] at h
        cases mv with
        | obj sub =>
          cases hsub : setNestedField sub v (g :: rest) with
          | none => simp only [hsub, Option.map_none'] at h; cases h
          | some sub' =>
            simp only [hsub, Option.map_some'] at h
            cases h
            unfold occupied nestedFieldNoCopy
            rw [lookupField_insertField_self]
            exact ih sub sub' hsub
        | null => cases h
        | bool b => cases h
        | int n => cases h
        | str s => cases h
        | arr es => cases h

/-- Writing at a previously absent path keeps every occupied path
    occupied. -/
theorem setNestedField_preserves_occupied (v : Value) :
    ∀ (q : List String) (fs fs' : List (String × Value)) (p : List String),
      occupied fs p = true →
      nestedFieldNoCopy (.obj fs) q = .absent →
      setNestedField fs v q = some fs' →
      occupied fs' p = true := by
  intro q
  induction q with
  | nil => intro fs fs' p hp habs hset; cases hset
  | cons f qrest ih =>
    intro fs fs' p hp habs hset
    cases qrest with
    | nil =>
      unfold setNestedField at hset
      cases hset
      have hlkf : lookupField fs f = none := by
        unfold nestedFieldNoCopy at habs
        cases hlk : lookupField fs f with
        | none => rfl
        | some u =>
          simp only [hlk] at habs
          cases u <;> simp [nestedFieldNoCopy] at habs
      cases p with
      | nil => rfl
      | cons g prest =>
        unfold occupied nestedFieldNoCopy at hp ⊢
        by_cases hgf : f = g
        · subst hgf
          simp only [hlkf] at hp
          cases hp
        · rw [lookupField_insertField_ne fs f g v hgf]
          exact hp
    | cons g grest =>
      unfold setNestedField at hset
      cases hlk : lookupField fs f with
      | none =>
        simp only [hlk] at hset
        cases hsub : setNestedField [] v (g :: grest) with
        | none => simp only [hsub, Option.map_none'] at hset; cases hset
        | some sub' =>
          simp only [hsub, Option.map_some'] at hset
          cases hset
          cases p with
          | nil => rfl
          | cons h0 prest =>
            unfold occupied nestedFieldNoCopy at hp ⊢
            by_cases hgf : f = h0
            · subst hgf
              simp only [hlk] at hp
              cases hp
            · rw [lookupField_insertField_ne fs f h0 (.obj sub') hgf]
              exact hp
      | some mv =>
        simp only [hlk] at hset
        cases mv with
        | obj sub =>
          cases hsub : setNestedField sub v (g :: grest) with
          | none => simp only [hsub, Option.map_none'] at hset; cases hset
          | some sub' =>
            simp only [hsub, Option.map_some'] at hset
            cases hset
            have habs' : nestedFieldNoCopy (.obj sub) (g :: grest) = .absent := by
              unfold nestedFieldNoCopy at habs
              simp only [hlk] at habs
              exact habs
            cases p with
            | nil => rfl
            | cons h0 prest =>
              unfold occupied nestedFieldNoCopy at hp ⊢
              by_cases hgf : f = h0
              · subst hgf
                simp only [hlk] at hp
                rw [lookupField_insertField_self]
                exact ih sub sub' prest hp habs' hsub
              · rw [lookupField_insertField_ne fs f h0 (.obj sub') hgf]
                exact hp
        | null => cases hset
        | bool b => cases hset
        | int n => cases hset
        | str s => cases hset
        | arr es => cases hset

/-- Item processing preserves and extends the set of pairwise-distinct
    occupied destination paths. -/
theorem processItems_invariant (srcObj : Unstructured) :
    ∀ (items : List ObjectTemplateSourceItem) (sources : List (String × Value))
      (done : List (List String)),
      (∀ p ∈ done, occupied sources p = true) →
      done.Pairwise (· ≠ ·) →
      ∀ sources', processItems srcObj items sources = .ok sources' →
      ((done ++ items.map fun it => goSplit it.destination '.').Pairwise (· ≠ ·) ∧
       ∀ p ∈ done ++ items.map fun it => goSplit it.destination '.',
         occupied sources' p = true) := by
  intro items
  induction items with
  | nil =>
    intro sources done hocc hpw sources' h
    unfold processItems at h
    cases h
    simpa using ⟨hpw, hocc⟩
  | cons item rest ih =>
    intro sources done hocc hpw sources' h
    unfold processItems at h
    cases hk : nestedFieldNoCopy (.obj srcObj.Object) (goSplit item.key '.') with
    | notAMap => simp only [hk] at h; cases h
    | absent => simp only [hk] at h; cases h
    | found value =>
      simp only [hk] at h
      cases hd : nestedFieldNoCopy (.obj sources) (goSplit item.destination '.') with
      | notAMap => simp only [hd] at h; cases h
      | found w => simp only [hd] at h; cases h
      | absent =>
        simp only [hd] at h
        cases hset : setNestedField sources value (goSplit item.destination '.') with
        | none => simp only [hset] at h; cases h
        | some s1 =>
          simp only [hset] at h
          have hdnotocc : occupied sources (goSplit item.destination '.') = false := by
            simp [occupied, hd]
          have hoccnew : ∀ p ∈ done ++ [goSplit item.destination '.'],
              occupied s1 p = true := by
            intro p hp
            rcases List.mem_append.mp hp with hp | hp
            · exact setNestedField_preserves_occupied value _ sources s1 p
                (hocc p hp) hd hset
            · rw [List.mem_singleton.mp hp]
              exact setNestedField_occupied value _ sources s1 hset
          have hpwnew : (done ++ [goSplit item.destination '.']).Pairwise (· ≠ ·) := by
            rw [List.pairwise_append]
            refine ⟨hpw, List.pairwise_singleton _ _, ?_⟩
            intro a ha b hb
            rw [List.mem_singleton.mp hb]
            intro hcon
            have hoa := hocc a ha
            rw [hcon, hdnotocc] at hoa
            cases hoa
          have hres := ih s1 (done ++ [goSplit item.destination '.']) hoccnew
            hpwnew sources' h
          rwa [List.append_assoc, List.singleton_append] at hres

/-- Source processing preserves and extends the set of pairwise-distinct
    occupied destination paths across all sources. -/
theorem processSources_invariant (env : TemplateEnv) (tmplNs : String) :
    ∀ (srcs : List ObjectTemplateSource) (sources : List (String × Value))
      (done : List (List String)),
      (∀ p ∈ done, occupied sources p = true) →
      done.Pairwise (· ≠ ·) →
      ∀ out, processSources env tmplNs srcs sources = .ok out →
      ((done ++ srcs.flatMap fun s => s.items.map fun it =>
          goSplit it.destination '.').Pairwise (· ≠ ·) ∧
       ∀ p ∈ done ++ srcs.flatMap fun s => s.items.map fun it =>
           goSplit it.destination '.',
         occupied out p = true) := by
  intro srcs
  induction srcs with
  | nil =>
    intro sources done hocc hpw out h
    unfold processSources at h
    cases h
    simpa using ⟨hpw, hocc⟩
  | cons src rest ih =>
    intro sources done hocc hpw out h
    unfold processSources at h
    by_cases hns : tmplNs ≠ "" ∧ src.nspace ≠ "" ∧ tmplNs ≠ src.nspace
    · simp only [if_pos hns] at h; cases h
    · simp only [if_neg hns] at h
      cases hres : (if tmplNs ≠ "" then
            Except.ok
              ((((Unstructured.mk []).setName src.name).setKind src.kind).setNamespace tmplNs)
          else if src.nspace ≠ "" then
            Except.ok
              ((((Unstructured.mk []).setName src.name).setKind src.kind).setNamespace src.nspace)
          else (Except.error (TemplateError.noNamespace src.name) :
            Except TemplateError Unstructured)) with
      | error e => simp only [hres] at h; cases h
      | ok sourceObj =>
        simp only [hres] at h
        cases hw : env.watchErr sourceObj with
        | some e => simp only [hw] at h; cases h
        | none =>
          simp only [hw] at h
          cases hg : env.get sourceObj with
          | errNotFound => simp only [hg] at h; cases h
          | errOther e => simp only [hg] at h; cases h
          | ok fetched =>
            simp only [hg] at h
            cases hpi : processItems fetched src.items sources with
            | error e => simp only [hpi] at h; cases h
            | ok s1 =>
              simp only [hpi] at h
              have hitems := processItems_invariant fetched src.items sources
                done hocc hpw s1 hpi
              have hrest := ih s1
                (done ++ src.items.map fun it => goSplit it.destination '.')
                hitems.2 hitems.1 out h
              simpa [List.flatMap_cons, List.append_assoc] using hrest

/-- C8. `GetValuesFromSources` fails whenever an item's destination
    path already holds a value in the source-value map built so far, and on
    any successful run the destination paths of all items of the reconcile
    are pairwise distinct. -/
theorem duplicate_destination_rejected :
    (∀ (srcObj : Unstructured) (item : ObjectTemplateSourceItem)
        (rest : List ObjectTemplateSourceItem)
        (sources : List (String × Value)) (v : Value),
      nestedFieldNoCopy (.obj sources) (goSplit item.destination '.') =
        .found v →
      ∃ e, processItems srcObj (item :: rest) sources = .error e) ∧
    (∀ (env : TemplateEnv) (tmplNamespace : String)
        (srcs : List ObjectTemplateSource) (out : List (String × Value)),
      GetValuesFromSources env tmplNamespace srcs = .ok out →
      (srcs.flatMap fun s => s.items.map fun it =>
        goSplit it.destination '.').Pairwise (· ≠ ·)) := by
  constructor
  · intro srcObj item rest sources v hd
    unfold processItems
    cases hk : nestedFieldNoCopy (.obj srcObj.Object) (goSplit item.key '.') with
    | notAMap => exact ⟨_, rfl⟩
    | absent => exact ⟨_, rfl⟩
    | found value =>
      refine ⟨.duplicateDestination item.destination, ?_⟩
      simp only [hd]
  · intro env tmplNamespace srcs out h
    have hres := processSources_invariant env tmplNamespace srcs [] []
      (by intro p hp; cases hp) (List.Pairwise.nil) out h
    simpa using hres.1

/-- Witness environment for C8: one source with two items writing to the
    distinct destinations `config.a` and `config.b`. -/
def c8SrcObj : Unstructured := ⟨[("data", .obj [("foo", .str "x")])]⟩

def c8Env : TemplateEnv :=
  { watchErr := fun _ => none
    get := fun _ => .ok c8SrcObj }

def c8Source : ObjectTemplateSource :=
  { apiVersion := "v1"
    kind := "ConfigMap"
    nspace := ""
    name := "cm"
    items := [⟨"data.foo", "config.a"⟩, ⟨"data.foo", "config.b"⟩]
    optional := false }

/-- Witness for C8: an occupied destination makes the item loop fail, and a
    successful run has pairwise-distinct destination paths. -/
theorem duplicate_destination_rejected_witness :
    (∃ e, processItems (⟨[]⟩ : Unstructured)
      [⟨"data.foo", "config.foo"⟩]
      [("config", .obj [("foo", .str "x")])] = .error e) ∧
    ([c8Source].flatMap fun s => s.items.map fun it =>
      goSplit it.destination '.').Pairwise (· ≠ ·) := by
  constructor
  · exact duplicate_destination_rejected.1 ⟨[]⟩ ⟨"data.foo", "config.foo"⟩ []
      [("config", .obj [("foo", .str "x")])] (.str "x") (by rfl)
  · exact duplicate_destination_rejected.2 c8Env "ns" [c8Source]
      [("config", .obj [("a", .str "x"), ("b", .str "x")])] (by rfl)

end PackageOperator
